import Mathlib

set_option maxRecDepth 4000

/-!
Verification of the GELF UDP writer (`gelf_writer.go`).

The shallow embedding below translates the chunked-framing path, the
compressor-lifecycle management and the JSON (un)marshalling of `Message`
into Lean. Byte buffers are `List Nat` (each entry one byte), the UDP
connection is an oracle assigning to each `Write` call either an error or
a reported byte count, and the randomness source (`crypto/rand`) is an
explicit entropy stream. Go's standard JSON codec is an external
collaborator: objects are modelled post-parse as association lists of
key/value pairs (a Go map is represented canonically with its keys in the
order `encoding/json` serializes them).
-/

/-- `ChunkSize` from the source: per-datagram budget in bytes. -/
def ChunkSize : Nat := 1420

/-- `chunkedHeaderLen` from the source: fixed chunk header size. -/
def chunkedHeaderLen : Nat := 12

/-- `chunkedDataLen` from the source: payload capacity of one chunk. -/
def chunkedDataLen : Nat := ChunkSize - chunkedHeaderLen

/-- `magicChunked` from the source: the chunked-framing magic bytes. -/
def magicChunked : List Nat := [0x1e, 0x0f]

/-- `numChunks` from the source: number of GELF chunks necessary to
transmit the given compressed buffer. -/
def numChunks (b : List Nat) : Nat :=
  if b.length ≤ ChunkSize then 1 else b.length / chunkedDataLen + 1

/-- The UDP connection oracle: each entry decides one `conn.Write` call,
returning either an error or the reported number of bytes written. Once
the list is exhausted every write succeeds in full. -/
abbrev Conn := List (Nat → Except String Nat)

/-- One `conn.Write` call of `len` bytes against the oracle. -/
def connWrite : Conn → Nat → Except String Nat × Conn
  | [], len => (Except.ok len, [])
  | f :: rest, _len => (f _len, rest)

/-- Observable outcome of one send: the returned error status and the
datagrams handed to `conn.Write`, in order. -/
structure SendTrace where
  result : Except String Unit
  sent : List (List Nat)

/-- Loop body of `UDPWriter.writeChunked` (source lines 159–196):
`count` chunks remain, `i` is the current sequence index, `bytesLeft`
mirrors the Go variable of the same name. Each iteration slices
`zBytes[i*chunkedDataLen : i*chunkedDataLen+chunkLen]`, prefixes the
12-byte header and writes the datagram, aborting on a write error or a
short write; after the loop a nonzero `bytesLeft` is an error. -/
def writeLoop (zBytes msgId : List Nat) (nChunks : Nat) :
    Nat → Nat → Nat → Conn → List (List Nat) → SendTrace
  | 0, _i, bytesLeft, _conn, sent =>
      if bytesLeft ≠ 0 then { result := Except.error "bytes left after sending", sent := sent }
      else { result := Except.ok (), sent := sent }
  | count + 1, i, bytesLeft, conn, sent =>
      let chunkLen := min chunkedDataLen bytesLeft
      let off := i * chunkedDataLen
      let chunk := (zBytes.drop off).take chunkLen
      let dgram := magicChunked ++ msgId ++ [i, nChunks] ++ chunk
      match connWrite conn dgram.length with
      | (Except.error _s, _) =>
          { result := Except.error "Write (chunk)", sent := sent ++ [dgram] }
      | (Except.ok n, conn') =>
          if n ≠ dgram.length then
            { result := Except.error "Write len (chunk)", sent := sent ++ [dgram] }
          else
            writeLoop zBytes msgId nChunks count (i + 1) (bytesLeft - chunkLen) conn'
              (sent ++ [dgram])

/-- `UDPWriter.writeChunked` (source lines 144–196). Returns the send
trace together with the entropy stream that remains after the 8-byte
message id was drawn; the size check precedes the draw. -/
def writeChunked (conn : Conn) (entropy : List Nat) (zBytes : List Nat) :
    SendTrace × List Nat :=
  let nChunksI := numChunks zBytes
  if nChunksI > 255 then
    ({ result := Except.error ("msg too large, would need " ++ toString nChunksI ++ " chunks"),
       sent := [] }, entropy)
  else if entropy.length < 8 then
    ({ result := Except.error "rand.Reader", sent := [] }, List.drop 8 entropy)
  else
    (writeLoop zBytes (entropy.take 8) nChunksI nChunksI 0 zBytes.length conn [],
     List.drop 8 entropy)

/-- Post-compression dispatch of `UDPWriter.WriteMessage` (source lines
266–277): more than one chunk takes the chunked path, otherwise the raw
compressed bytes are written as a single datagram, checking for a short
write. -/
def sendCompressed (conn : Conn) (entropy : List Nat) (zBytes : List Nat) : SendTrace :=
  if numChunks zBytes > 1 then (writeChunked conn entropy zBytes).1
  else
    match connWrite conn zBytes.length with
    | (Except.error s, _) => { result := Except.error s, sent := [zBytes] }
    | (Except.ok n, _) =>
        if n ≠ zBytes.length then { result := Except.error "bad write", sent := [zBytes] }
        else { result := Except.ok (), sent := [zBytes] }

/-- The payload slice assigned to chunk `j`: the `j`-th contiguous
`chunkedDataLen`-byte window of the compressed buffer. -/
def chunkPayload (zBytes : List Nat) (j : Nat) : List Nat :=
  (zBytes.drop (j * chunkedDataLen)).take chunkedDataLen

/-- The full datagram emitted for chunk `j`. -/
def chunkDgram (zBytes msgId : List Nat) (n j : Nat) : List Nat :=
  magicChunked ++ msgId ++ [j, n] ++ chunkPayload zBytes j

/-! ### Compressor lifecycle (claim C3)

The compression-management prefix of `UDPWriter.WriteMessage` (source
lines 234–259) together with the writer fields of lines 32–43. A live
compressor handle is identified by its construction parameters plus a
construction counter `cid`, so that rebuilding versus reusing is
observable. Crucially, the source never assigns `zwCompressionType` or
`zwCompressionLevel` anywhere: the model below keeps them unchanged just
as the code does. -/

inductive CompressType where
  | gzip
  | zlib
  | nocompress
deriving DecidableEq

structure Compressor where
  ctype : CompressType
  clevel : Int
  cid : Nat
deriving DecidableEq

structure WriterState where
  compressionLevel : Int
  compressionType : CompressType
  zw : Option Compressor
  zwCompressionLevel : Int
  zwCompressionType : CompressType
deriving DecidableEq

/-- Compression levels accepted by `gzip.NewWriterLevel` and
`zlib.NewWriterLevel` (−2 … 9). -/
def validLevel (lvl : Int) : Bool :=
  decide (-2 ≤ lvl) && decide (lvl ≤ 9)

/-- Source lines 234–259: discard the handle if the cached (type, level)
differs from the configured one, then construct a new handle only when
none is live (for `NoCompress` a fresh buffered writer is always
installed). `fresh` is the next construction-counter value; it increases
exactly when a new compressor is built. -/
def ensureCompressor (w : WriterState) (fresh : Nat) : Except String (WriterState × Nat) :=
  let w1 := if w.zwCompressionType ≠ w.compressionType ∨
               w.zwCompressionLevel ≠ w.compressionLevel
            then { w with zw := none } else w
  match w1.compressionType with
  | CompressType.gzip =>
      match w1.zw with
      | none =>
          if validLevel w1.compressionLevel then
            Except.ok ({ w1 with zw := some (Compressor.mk CompressType.gzip w1.compressionLevel fresh) }, fresh + 1)
          else Except.error "gzip: invalid compression level"
      | some _ => Except.ok (w1, fresh)
  | CompressType.zlib =>
      match w1.zw with
      | none =>
          if validLevel w1.compressionLevel then
            Except.ok ({ w1 with zw := some (Compressor.mk CompressType.zlib w1.compressionLevel fresh) }, fresh + 1)
          else Except.error "zlib: invalid compression level"
      | some _ => Except.ok (w1, fresh)
  | CompressType.nocompress =>
      Except.ok ({ w1 with zw := some (Compressor.mk CompressType.nocompress 0 fresh) }, fresh + 1)

/-- The writer produced by `newUDPWriter`: `CompressionLevel` is set to
`flate.BestSpeed` (1); every other field keeps its Go zero value, in
particular `zwCompressionLevel = 0` and `zwCompressionType =
CompressGzip`. -/
def initialWriter : WriterState :=
  { compressionLevel := 1
    compressionType := CompressType.gzip
    zw := none
    zwCompressionLevel := 0
    zwCompressionType := CompressType.gzip }

/-! ### The Message record and its JSON encoding (claims C6–C8, C10)

JSON values are modelled post-parse: `encoding/json` decodes every
number into a float64, here represented exactly by a rational (the
claims only concern values a float64 represents faithfully). Composite
extension values (arrays/objects) are elided: no claim depends on the
shape of an extension value. A Go map is represented as an association
list with unique keys, canonically in the order `encoding/json` emits
(sorted for a map); iteration processes entries in list order. -/

inductive Jval where
  | null
  | bool (b : Bool)
  | num (q : Rat)
  | str (s : String)
deriving DecidableEq

/-- The `Message` struct (source lines 57–68). `TimeUnix` is a float64
in the source; `Level` is an int32 and `Line` an int, both modelled as
unbounded integers with the range constraints stated where needed. -/
structure Message where
  Version : String
  Host : String
  Short : String
  Full : String
  TimeUnix : Rat
  Level : Int
  Facility : String
  File : String
  Line : Int
  Extra : List (String × Jval)
deriving DecidableEq

def quoteChar : Char := Char.ofNat 34

def backslashChar : Char := Char.ofNat 92

def lbrace : Char := Char.ofNat 123

def rbrace : Char := Char.ofNat 125

/-- Model of `encoding/json` string escaping (quotes and backslashes;
Go additionally escapes control and HTML characters, immaterial here). -/
def escChar (c : Char) : List Char :=
  if c = quoteChar ∨ c = backslashChar then [backslashChar, c] else [c]

def serStr (s : String) : List Char :=
  quoteChar :: (s.data.map escChar).flatten ++ [quoteChar]

/-- Model of `encoding/json` number output. Only integral values occur
in the verified claims; the digits of non-integral output never matter
to the splicing argument. -/
def serNum (q : Rat) : List Char :=
  if q.den = 1 then (toString q.num).data else (toString q).data

def serJval : Jval → List Char
  | Jval.null => "null".data
  | Jval.bool true => "true".data
  | Jval.bool false => "false".data
  | Jval.num q => serNum q
  | Jval.str s => serStr s

def serMember (p : String × Jval) : List Char :=
  serStr p.1 ++ ':' :: serJval p.2

def commaSep : List (List Char) → List Char
  | [] => []
  | [x] => x
  | x :: y :: ys => x ++ ',' :: commaSep (y :: ys)

/-- Serialization of one flat JSON object from its member list. -/
def serObj (ps : List (String × Jval)) : List Char :=
  lbrace :: commaSep (ps.map serMember) ++ [rbrace]

/-- The fixed fields in struct order under their `json:"…"` tag names,
exactly what `json.Marshal((*innerMessage)(m))` emits. -/
def fixedPairs (m : Message) : List (String × Jval) :=
  [("version", Jval.str m.Version),
   ("host", Jval.str m.Host),
   ("short_message", Jval.str m.Short),
   ("full_message", Jval.str m.Full),
   ("timestamp", Jval.num m.TimeUnix),
   ("level", Jval.num (m.Level : Rat)),
   ("facility", Jval.str m.Facility),
   ("file", Jval.str m.File),
   ("line", Jval.num (m.Line : Rat))]

/-- `json.Marshal((*innerMessage)(m))`: the fixed fields alone. -/
def marshalInner (m : Message) : List Char := serObj (fixedPairs m)

/-- `Message.MarshalJSON` (source lines 330–352): serialize the fixed
fields; if the extension map is empty return that; otherwise serialize
the extension map, overwrite the closing brace of the first buffer with
a comma and append the second buffer minus its opening brace. -/
def marshalJSON (m : Message) : List Char :=
  let b := marshalInner m
  if m.Extra.length = 0 then b
  else
    let eb := serObj m.Extra
    (b.set (b.length - 1) ',') ++ eb.drop 1

/-! ### Decoding (`Message.UnmarshalJSON`, source lines 354–389) -/

/-- Outcome of one key/value routing step: Go either mutates the message
and continues, or panics (out-of-range index or failed type assertion). -/
inductive StepResult where
  | cont (m : Message)
  | panic (r : String)
deriving DecidableEq

/-- Outcome of the whole decode loop. The source returns a non-nil error
only from `json.Unmarshal` itself (malformed input, external to this
model); the routing loop either finishes or panics. -/
inductive DecodeOutcome where
  | ok (m : Message)
  | panic (r : String)
deriving DecidableEq

/-- Go map insertion `m.Extra[k] = v` on the association-list model. -/
def mapInsert : List (String × Jval) → String → Jval → List (String × Jval)
  | [], k, v => [(k, v)]
  | p :: rest, k, v =>
      if p.1 = k then (k, v) :: rest else p :: mapInsert rest k v

/-- Go float64→integer conversion truncates toward zero. -/
def truncToward0 (q : Rat) : Int :=
  if q < 0 then -(Int.floor (-q)) else Int.floor q

/-- Two's-complement wrap into int32 (Go's behaviour is only specified
in-range; the claims restrict to in-range values). -/
def wrap32 (z : Int) : Int :=
  (z + 2147483648) % 4294967296 - 2147483648

/-- Two's-complement wrap into int64. -/
def wrap64 (z : Int) : Int :=
  (z + 9223372036854775808) % 18446744073709551616 - 9223372036854775808

/-- `int32(v.(float64))` once the assertion succeeded. -/
def ratToInt32 (q : Rat) : Int := wrap32 (truncToward0 q)

/-- `int(v.(float64))` once the assertion succeeded. -/
def ratToInt64 (q : Rat) : Int := wrap64 (truncToward0 q)

/-- The `switch k` of `UnmarshalJSON`: each known fixed key coerces the
value with an unchecked type assertion (panic on mismatch); unknown keys
are silently dropped. -/
def decodeFixed (m : Message) (k : String) (v : Jval) : StepResult :=
  match k, v with
  | "version", Jval.str s => StepResult.cont { m with Version := s }
  | "version", _ => StepResult.panic "interface conversion"
  | "host", Jval.str s => StepResult.cont { m with Host := s }
  | "host", _ => StepResult.panic "interface conversion"
  | "short_message", Jval.str s => StepResult.cont { m with Short := s }
  | "short_message", _ => StepResult.panic "interface conversion"
  | "full_message", Jval.str s => StepResult.cont { m with Full := s }
  | "full_message", _ => StepResult.panic "interface conversion"
  | "timestamp", Jval.num q => StepResult.cont { m with TimeUnix := q }
  | "timestamp", _ => StepResult.panic "interface conversion"
  | "level", Jval.num q => StepResult.cont { m with Level := ratToInt32 q }
  | "level", _ => StepResult.panic "interface conversion"
  | "facility", Jval.str s => StepResult.cont { m with Facility := s }
  | "facility", _ => StepResult.panic "interface conversion"
  | "file", Jval.str s => StepResult.cont { m with File := s }
  | "file", _ => StepResult.panic "interface conversion"
  | "line", Jval.num q => StepResult.cont { m with Line := ratToInt64 q }
  | "line", _ => StepResult.panic "interface conversion"
  | _, _ => StepResult.cont m

/-- One iteration of the `for k, v := range i` loop: `k[0]` panics on an
empty key, an underscore-prefixed key goes to the extension map, every
other key is routed through the fixed-field switch. -/
def decodeStep (m : Message) (k : String) (v : Jval) : StepResult :=
  match k.data with
  | [] => StepResult.panic "runtime error: index out of range"
  | c :: _ =>
      if c = '_' then StepResult.cont { m with Extra := mapInsert m.Extra k v }
      else decodeFixed m k v

/-- The whole routing loop of `UnmarshalJSON` over the parsed object. -/
def decodeLoop : Message → List (String × Jval) → DecodeOutcome
  | m, [] => DecodeOutcome.ok m
  | m, (k, v) :: rest =>
      match decodeStep m k v with
      | StepResult.cont m' => decodeLoop m' rest
      | StepResult.panic r => DecodeOutcome.panic r

/-- The zero `Message` that `UnmarshalJSON` starts from. -/
def emptyMessage : Message :=
  { Version := "", Host := "", Short := "", Full := "", TimeUnix := 0,
    Level := 0, Facility := "", File := "", Line := 0, Extra := [] }

def isPanic : DecodeOutcome → Bool
  | DecodeOutcome.panic _ => true
  | DecodeOutcome.ok _ => false

/-- Decode-of-encode at the structural level: by claim C6 the encoder
emits the flat object `fixedPairs m ++ m.Extra`, and `json.Unmarshal`
of `json.Marshal` output recovers exactly that object (the standard
codec is an external collaborator), so the round trip is the routing
loop applied to it. -/
def roundTrip (m : Message) : DecodeOutcome :=
  decodeLoop emptyMessage (fixedPairs m ++ m.Extra)

/-! ### Theorems -/

theorem chunkedDataLen_eq : chunkedDataLen = 1408 := rfl

theorem ChunkSize_eq : ChunkSize = 1420 := rfl

theorem chunkedHeaderLen_eq : chunkedHeaderLen = 12 := rfl

/-! ### Helper lemmas for the chunk loop -/

lemma take_min (xs : List Nat) (d : Nat) : xs.take (min d xs.length) = xs.take d := by
  rcases Nat.le_total d xs.length with h | h
  · rw [Nat.min_eq_left h]
  · rw [Nat.min_eq_right h, List.take_length, List.take_of_length_le h]

lemma bytesLeft_step (len i : Nat) :
    len - i * chunkedDataLen - min chunkedDataLen (len - i * chunkedDataLen) =
      len - (i + 1) * chunkedDataLen := by
  rw [chunkedDataLen_eq]
  omega

lemma chunk_eq_payload (zBytes : List Nat) (i : Nat) :
    (zBytes.drop (i * chunkedDataLen)).take
        (min chunkedDataLen (zBytes.length - i * chunkedDataLen)) =
      chunkPayload zBytes i := by
  have h := take_min (zBytes.drop (i * chunkedDataLen)) chunkedDataLen
  rw [List.length_drop] at h
  exact h

/-- Behaviour of the chunk loop when every write succeeds in full: it
emits the datagrams for sequence indices `i, i+1, …, i+count-1` and
afterwards reports success exactly when no input bytes remain. -/
lemma writeLoop_nil (zBytes msgId : List Nat) (n : Nat) (count : Nat) :
    ∀ (i : Nat) (sent : List (List Nat)),
      writeLoop zBytes msgId n count i (zBytes.length - i * chunkedDataLen) [] sent =
        { result := if zBytes.length ≤ (i + count) * chunkedDataLen then Except.ok ()
                    else Except.error "bytes left after sending",
          sent := sent ++ (List.range' i count).map (chunkDgram zBytes msgId n) } := by
  induction count with
  | zero =>
    intro i sent
    by_cases h : zBytes.length ≤ i * chunkedDataLen
    · have h0 : zBytes.length - i * chunkedDataLen = 0 := Nat.sub_eq_zero_of_le h
      simp [writeLoop, h0, h]
    · have h0 : zBytes.length - i * chunkedDataLen ≠ 0 := by omega
      simp [writeLoop, h0, h]
  | succ c ih =>
    intro i sent
    rw [writeLoop]
    simp only [connWrite, ne_eq, not_true_eq_false, if_false, ite_false]
    rw [chunk_eq_payload, bytesLeft_step,
      show magicChunked ++ msgId ++ [i, n] ++ chunkPayload zBytes i =
        chunkDgram zBytes msgId n i from rfl,
      ih (i + 1) (sent ++ [chunkDgram zBytes msgId n i])]
    have hn : i + 1 + c = i + (c + 1) := by omega
    have hr : List.range' i (c + 1) = i :: List.range' (i + 1) c := List.range'_succ i c 1
    rw [hn, hr]
    simp [chunkDgram, List.append_assoc]

/-- `writeChunked` against a fully-successful connection, below the
255-chunk limit and with enough entropy: the emitted datagram sequence
is `chunkDgram` for every index below `numChunks`. -/
lemma writeChunked_nil (entropy zBytes : List Nat)
    (h8 : 8 ≤ entropy.length) (h255 : numChunks zBytes ≤ 255) :
    writeChunked [] entropy zBytes =
      ({ result := if zBytes.length ≤ numChunks zBytes * chunkedDataLen then Except.ok ()
                   else Except.error "bytes left after sending",
         sent := (List.range (numChunks zBytes)).map
                   (chunkDgram zBytes (entropy.take 8) (numChunks zBytes)) },
       List.drop 8 entropy) := by
  rw [writeChunked]
  rw [if_neg (by omega), if_neg (by omega)]
  have h := writeLoop_nil zBytes (entropy.take 8) (numChunks zBytes) (numChunks zBytes) 0 []
  rw [Nat.zero_mul, Nat.sub_zero] at h
  rw [h, List.range_eq_range']
  simp

/-- Concatenating the `d`-byte windows of `l` in order restores `l`. -/
lemma join_chunks (d : Nat) :
    ∀ (n : Nat) (l : List Nat), l.length ≤ n * d →
      ((List.range n).map (fun j => (l.drop (j * d)).take d)).flatten = l := by
  intro n
  induction n with
  | zero =>
    intro l h
    rw [Nat.zero_mul, Nat.le_zero, List.length_eq_zero] at h
    simp [h]
  | succ n ih =>
    intro l h
    rw [Nat.succ_mul] at h
    rw [List.range_succ_eq_map, List.map_cons, List.map_map, List.flatten_cons]
    have hmap : (List.range n).map ((fun j => (l.drop (j * d)).take d) ∘ Nat.succ) =
        (List.range n).map (fun j => ((l.drop d).drop (j * d)).take d) := by
      congr 1
      funext j
      simp only [Function.comp]
      rw [List.drop_drop, Nat.succ_mul, Nat.add_comm (j * d) d]
    have hlen : (l.drop d).length ≤ n * d := by
      rw [List.length_drop]
      omega
    rw [Nat.zero_mul, List.drop_zero, hmap, ih (l.drop d) hlen]
    exact List.take_append_drop d l

/-- Below the single-datagram threshold the chunk count is forced to 1,
so a chunk count of 2 or more means the buffer did not fit and the
division formula applies; its result times the chunk capacity covers the
whole buffer. -/
lemma numChunks_mul_le (zBytes : List Nat) (h2 : 2 ≤ numChunks zBytes) :
    zBytes.length ≤ numChunks zBytes * chunkedDataLen := by
  have hgt : ¬ zBytes.length ≤ ChunkSize := by
    intro h
    rw [numChunks, if_pos h] at h2
    omega
  rw [numChunks, if_neg hgt, chunkedDataLen_eq]
  omega

lemma chunkDgram_length (zBytes msgId : List Nat) (n j : Nat) (hm : msgId.length = 8) :
    (chunkDgram zBytes msgId n j).length =
      chunkedHeaderLen + min chunkedDataLen (zBytes.length - j * chunkedDataLen) := by
  simp [chunkDgram, chunkPayload, magicChunked, hm, chunkedHeaderLen_eq]
  omega

lemma chunkDgram_drop_header (zBytes msgId : List Nat) (n j : Nat) (hm : msgId.length = 8) :
    (chunkDgram zBytes msgId n j).drop chunkedHeaderLen = chunkPayload zBytes j := by
  have hsplit : chunkDgram zBytes msgId n j =
      (magicChunked ++ msgId ++ [j, n]) ++ chunkPayload zBytes j := by
    simp [chunkDgram, List.append_assoc]
  have hlen : (magicChunked ++ msgId ++ [j, n]).length = chunkedHeaderLen := by
    simp [magicChunked, hm, chunkedHeaderLen_eq]
  rw [hsplit, ← hlen, List.drop_left]

/-- Claim C1: for a compressed buffer needing between 2 and 255 chunks,
`writeChunked` succeeds, emits exactly `numChunks` datagrams whose
sequence indices run contiguously from 0 to total−1, the `j`-th payload
is the `j`-th contiguous window of the input, and concatenating the
payloads in sequence order restores the input exactly. -/
theorem claim_C1 (zBytes entropy : List Nat) (h8 : 8 ≤ entropy.length)
    (h2 : 2 ≤ numChunks zBytes) (h255 : numChunks zBytes ≤ 255) :
    (writeChunked [] entropy zBytes).1.result = Except.ok () ∧
    (writeChunked [] entropy zBytes).1.sent.length = numChunks zBytes ∧
    (∀ j, j < numChunks zBytes →
        ((writeChunked [] entropy zBytes).1.sent)[j]? =
          some (chunkDgram zBytes (entropy.take 8) (numChunks zBytes) j)) ∧
    ((writeChunked [] entropy zBytes).1.sent.map
        (fun dg => dg.drop chunkedHeaderLen)).flatten = zBytes := by
  have hle := numChunks_mul_le zBytes h2
  have hm : (entropy.take 8).length = 8 := by
    rw [List.length_take]
    omega
  rw [writeChunked_nil entropy zBytes h8 h255]
  refine ⟨by simp [hle], by simp, ?_, ?_⟩
  · intro j hj
    simp [List.getElem?_map, List.getElem?_range hj]
  · simp only [List.map_map]
    have hcomp : (fun dg => dg.drop chunkedHeaderLen) ∘
        chunkDgram zBytes (entropy.take 8) (numChunks zBytes) =
        fun j => (zBytes.drop (j * chunkedDataLen)).take chunkedDataLen := by
      funext j
      have := chunkDgram_drop_header zBytes (entropy.take 8) (numChunks zBytes) j hm
      simpa [Function.comp, chunkPayload] using this
    rw [hcomp]
    exact join_chunks chunkedDataLen (numChunks zBytes) zBytes hle

theorem claim_C1_witness :
    8 ≤ ([0, 1, 2, 3, 4, 5, 6, 7] : List Nat).length ∧
    2 ≤ numChunks (List.replicate 1421 0) ∧ numChunks (List.replicate 1421 0) ≤ 255 ∧
    ((writeChunked [] [0, 1, 2, 3, 4, 5, 6, 7] (List.replicate 1421 0)).1.sent.map
        (fun dg => dg.drop chunkedHeaderLen)).flatten = List.replicate 1421 0 := by
  have hn : numChunks (List.replicate 1421 0) = 2 := by
    unfold numChunks
    rw [List.length_replicate]
    norm_num [ChunkSize, chunkedDataLen, chunkedHeaderLen]
  refine ⟨by decide, by omega, by omega, ?_⟩
  exact (claim_C1 (List.replicate 1421 0) [0, 1, 2, 3, 4, 5, 6, 7]
    (by decide) (by omega) (by omega)).2.2.2

/-- Claim C2: `numChunks` returns 1 below the 1420-byte threshold and
`len/1408 + 1` above it; a chunk count of 1 makes the dispatch write the
raw bytes as one datagram with no header, a larger count takes the
chunked path. -/
theorem claim_C2 (b zBytes : List Nat) (conn : Conn) (entropy : List Nat) :
    (b.length ≤ ChunkSize → numChunks b = 1) ∧
    (ChunkSize < b.length → numChunks b = b.length / chunkedDataLen + 1) ∧
    (numChunks zBytes = 1 → (sendCompressed conn entropy zBytes).sent = [zBytes]) ∧
    (1 < numChunks zBytes →
      sendCompressed conn entropy zBytes = (writeChunked conn entropy zBytes).1) := by
  refine ⟨fun h => by rw [numChunks, if_pos h],
    fun h => by rw [numChunks, if_neg (by omega)], ?_, ?_⟩
  · intro h1
    rw [sendCompressed, if_neg (by omega)]
    rcases hc : connWrite conn zBytes.length with ⟨res, conn'⟩
    rcases res with s | n
    · simp
    · by_cases hn : n = zBytes.length <;> simp [hn]
  · intro h1
    rw [sendCompressed, if_pos (by omega)]

theorem claim_C2_witness :
    ([1, 2, 3] : List Nat).length ≤ ChunkSize ∧
    numChunks [1, 2, 3] = 1 ∧
    ChunkSize < (List.replicate 1421 0).length ∧
    numChunks (List.replicate 1421 0) = (List.replicate 1421 0).length / chunkedDataLen + 1 ∧
    (sendCompressed [] [9] [1, 2, 3]).sent = [[1, 2, 3]] ∧
    sendCompressed [] [9] (List.replicate 1421 0) =
      (writeChunked [] [9] (List.replicate 1421 0)).1 := by
  have hlen : ChunkSize < (List.replicate 1421 0).length := by
    rw [List.length_replicate, ChunkSize_eq]
    omega
  have hn : 1 < numChunks (List.replicate 1421 0) := by
    unfold numChunks
    rw [List.length_replicate]
    norm_num [ChunkSize, chunkedDataLen, chunkedHeaderLen]
  refine ⟨by decide, (claim_C2 [1, 2, 3] [1, 2, 3] [] [9]).1 (by decide), hlen,
    (claim_C2 (List.replicate 1421 0) [1, 2, 3] [] [9]).2.1 hlen,
    (claim_C2 [1, 2, 3] [1, 2, 3] [] [9]).2.2.1 (by decide),
    (claim_C2 (List.replicate 1421 0) (List.replicate 1421 0) [] [9]).2.2.2 hn⟩

/-- Claim C4: a buffer whose chunk count exceeds 255 makes `writeChunked`
fail with the capacity error, with zero datagrams handed to the
connection and the entropy source untouched (the message id is never
drawn). -/
theorem claim_C4 (conn : Conn) (entropy zBytes : List Nat)
    (h : 255 < numChunks zBytes) :
    writeChunked conn entropy zBytes =
      ({ result := Except.error ("msg too large, would need " ++
           toString (numChunks zBytes) ++ " chunks"), sent := [] }, entropy) := by
  rw [writeChunked]
  rw [if_pos h]

theorem claim_C4_witness :
    255 < numChunks (List.replicate 359041 0) ∧
    writeChunked [] [9] (List.replicate 359041 0) =
      ({ result := Except.error ("msg too large, would need " ++
           toString (numChunks (List.replicate 359041 0)) ++ " chunks"), sent := [] }, [9]) := by
  have h : 255 < numChunks (List.replicate 359041 0) := by
    unfold numChunks
    rw [List.length_replicate]
    norm_num [ChunkSize, chunkedDataLen, chunkedHeaderLen]
  exact ⟨h, claim_C4 [] [9] (List.replicate 359041 0) h⟩

/-- Claim C5: every datagram emitted by `writeChunked` is the 12-byte
header — magic `0x1e 0x0f`, the 8-byte message id shared by all chunks,
the 1-byte sequence index, the 1-byte total — followed by the payload,
and its total size is at most `ChunkSize` bytes. -/
theorem claim_C5 (zBytes entropy : List Nat) (h8 : 8 ≤ entropy.length)
    (h255 : numChunks zBytes ≤ 255) :
    ∀ j, j < (writeChunked [] entropy zBytes).1.sent.length →
      ((writeChunked [] entropy zBytes).1.sent)[j]? =
        some ([0x1e, 0x0f] ++ entropy.take 8 ++ [j, numChunks zBytes] ++ chunkPayload zBytes j) ∧
      ([0x1e, 0x0f] ++ entropy.take 8 ++ [j, numChunks zBytes] ++
          chunkPayload zBytes j).length ≤ ChunkSize := by
  have hm : (entropy.take 8).length = 8 := by
    rw [List.length_take]
    omega
  rw [writeChunked_nil entropy zBytes h8 h255]
  intro j hj
  simp only [List.length_map, List.length_range] at hj
  constructor
  · simp [List.getElem?_map, List.getElem?_range hj, chunkDgram, magicChunked]
  · have hl := chunkDgram_length zBytes (entropy.take 8) (numChunks zBytes) j hm
    rw [show ([0x1e, 0x0f] : List Nat) ++ entropy.take 8 ++ [j, numChunks zBytes] ++
        chunkPayload zBytes j = chunkDgram zBytes (entropy.take 8) (numChunks zBytes) j
        from rfl, hl, chunkedHeaderLen_eq, chunkedDataLen_eq, ChunkSize_eq]
    omega

theorem claim_C5_witness :
    8 ≤ ([0, 1, 2, 3, 4, 5, 6, 7] : List Nat).length ∧
    numChunks (List.replicate 1421 0) ≤ 255 ∧
    0 < (writeChunked [] [0, 1, 2, 3, 4, 5, 6, 7] (List.replicate 1421 0)).1.sent.length ∧
    (((writeChunked [] [0, 1, 2, 3, 4, 5, 6, 7] (List.replicate 1421 0)).1.sent)[0]? =
      some ([0x1e, 0x0f] ++ ([0, 1, 2, 3, 4, 5, 6, 7] : List Nat).take 8 ++
        [0, numChunks (List.replicate 1421 0)] ++ chunkPayload (List.replicate 1421 0) 0) ∧
     ([0x1e, 0x0f] ++ ([0, 1, 2, 3, 4, 5, 6, 7] : List Nat).take 8 ++
        [0, numChunks (List.replicate 1421 0)] ++
        chunkPayload (List.replicate 1421 0) 0).length ≤ ChunkSize) := by
  have hn : numChunks (List.replicate 1421 0) = 2 := by
    unfold numChunks
    rw [List.length_replicate]
    norm_num [ChunkSize, chunkedDataLen, chunkedHeaderLen]
  have h255 : numChunks (List.replicate 1421 0) ≤ 255 := by omega
  have hlen : 0 < (writeChunked [] [0, 1, 2, 3, 4, 5, 6, 7]
      (List.replicate 1421 0)).1.sent.length := by
    rw [writeChunked_nil _ _ (by decide) h255]
    simp only [List.length_map, List.length_range]
    omega
  exact ⟨by decide, h255, hlen,
    claim_C5 (List.replicate 1421 0) [0, 1, 2, 3, 4, 5, 6, 7] (by decide) h255 0 hlen⟩

/-! ### Short writes abort the send (claim C9) -/

lemma writeLoop_step_ok (zBytes msgId : List Nat) (n count i : Nat) (conn : Conn)
    (sent : List (List Nat)) :
    writeLoop zBytes msgId n (count + 1) i (zBytes.length - i * chunkedDataLen)
        ((fun l => Except.ok l) :: conn) sent =
      writeLoop zBytes msgId n count (i + 1) (zBytes.length - (i + 1) * chunkedDataLen) conn
        (sent ++ [chunkDgram zBytes msgId n i]) := by
  rw [writeLoop]
  simp only [connWrite, ne_eq, not_true_eq_false, if_false, ite_false]
  rw [chunk_eq_payload, bytesLeft_step,
    show magicChunked ++ msgId ++ [i, n] ++ chunkPayload zBytes i =
      chunkDgram zBytes msgId n i from rfl]

lemma writeLoop_step_short (zBytes msgId : List Nat) (n count i n0 : Nat) (conn : Conn)
    (sent : List (List Nat)) (hne : n0 ≠ (chunkDgram zBytes msgId n i).length) :
    writeLoop zBytes msgId n (count + 1) i (zBytes.length - i * chunkedDataLen)
        ((fun _ => Except.ok n0) :: conn) sent =
      { result := Except.error "Write len (chunk)",
        sent := sent ++ [chunkDgram zBytes msgId n i] } := by
  rw [writeLoop]
  simp only [connWrite]
  rw [chunk_eq_payload,
    show magicChunked ++ msgId ++ [i, n] ++ chunkPayload zBytes i =
      chunkDgram zBytes msgId n i from rfl,
    if_pos hne]

/-- After `k` fully-successful writes, a short write on chunk `i + k`
stops the loop with an error; exactly the first `k + 1` datagrams were
handed to the connection. -/
lemma writeLoop_prefix_short (zBytes msgId : List Nat) (n n0 : Nat) :
    ∀ (k count i : Nat) (sent : List (List Nat)), k < count →
      n0 ≠ (chunkDgram zBytes msgId n (i + k)).length →
      writeLoop zBytes msgId n count i (zBytes.length - i * chunkedDataLen)
          (List.replicate k (fun l => Except.ok l) ++ [fun _ => Except.ok n0]) sent =
        { result := Except.error "Write len (chunk)",
          sent := sent ++ (List.range' i (k + 1)).map (chunkDgram zBytes msgId n) } := by
  intro k
  induction k with
  | zero =>
    intro count i sent hk hne
    obtain ⟨c, rfl⟩ : ∃ c, count = c + 1 := ⟨count - 1, by omega⟩
    rw [List.replicate_zero, List.nil_append,
      writeLoop_step_short zBytes msgId n c i n0 [] sent (by simpa using hne)]
    have hr : List.range' i 1 = [i] := rfl
    rw [hr]
    simp
  | succ k ih =>
    intro count i sent hk hne
    obtain ⟨c, rfl⟩ : ∃ c, count = c + 1 := ⟨count - 1, by omega⟩
    rw [List.replicate_succ, List.cons_append, writeLoop_step_ok,
      ih c (i + 1) (sent ++ [chunkDgram zBytes msgId n i]) (by omega)
        (by rw [show i + 1 + k = i + (k + 1) from by omega]; exact hne)]
    have hr : List.range' i (k + 1 + 1) = i :: List.range' (i + 1) (k + 1) :=
      List.range'_succ i (k + 1) 1
    rw [hr]
    simp [List.append_assoc]

/-- Claim C9: the byte count reported by every datagram write is checked
against the buffer length. In a chunked send, a short write on the `k`-th
chunk makes the send return an error with no later chunk attempted; in an
unchunked send a short write of the single raw datagram is an error. -/
theorem claim_C9 (zBytes entropy : List Nat) (k n0 : Nat)
    (h8 : 8 ≤ entropy.length) (h2 : 2 ≤ numChunks zBytes) (h255 : numChunks zBytes ≤ 255)
    (hk : k < numChunks zBytes)
    (hshort : n0 ≠ chunkedHeaderLen + min chunkedDataLen
        (zBytes.length - k * chunkedDataLen)) :
    ((sendCompressed (List.replicate k (fun l => Except.ok l) ++ [fun _ => Except.ok n0])
        entropy zBytes).result = Except.error "Write len (chunk)" ∧
     (sendCompressed (List.replicate k (fun l => Except.ok l) ++ [fun _ => Except.ok n0])
        entropy zBytes).sent.length = k + 1) ∧
    (∀ (b : List Nat) (n1 : Nat), numChunks b = 1 → n1 ≠ b.length →
      sendCompressed [fun _ => Except.ok n1] entropy b =
        { result := Except.error "bad write", sent := [b] }) := by
  have hm : (entropy.take 8).length = 8 := by
    rw [List.length_take]
    omega
  constructor
  · have hdgram : n0 ≠ (chunkDgram zBytes (entropy.take 8) (numChunks zBytes) (0 + k)).length := by
      rw [chunkDgram_length zBytes (entropy.take 8) (numChunks zBytes) (0 + k) hm]
      simpa using hshort
    have hsend : sendCompressed (List.replicate k (fun l => Except.ok l) ++
        [fun _ => Except.ok n0]) entropy zBytes =
        { result := Except.error "Write len (chunk)",
          sent := (List.range' 0 (k + 1)).map
            (chunkDgram zBytes (entropy.take 8) (numChunks zBytes)) } := by
      rw [sendCompressed, if_pos (by omega), writeChunked]
      rw [if_neg (by omega), if_neg (by omega)]
      have h0 := writeLoop_prefix_short zBytes (entropy.take 8) (numChunks zBytes) n0 k
        (numChunks zBytes) 0 [] hk hdgram
      rw [Nat.zero_mul, Nat.sub_zero] at h0
      rw [h0, List.nil_append]
    rw [hsend]
    exact ⟨rfl, by simp⟩
  · intro b n1 hb hn1
    rw [sendCompressed, if_neg (by omega)]
    simp only [connWrite]
    rw [if_pos hn1]

theorem claim_C9_witness :
    8 ≤ ([0, 1, 2, 3, 4, 5, 6, 7] : List Nat).length ∧
    2 ≤ numChunks (List.replicate 2821 7) ∧ numChunks (List.replicate 2821 7) ≤ 255 ∧
    1 < numChunks (List.replicate 2821 7) ∧
    (0 : Nat) ≠ chunkedHeaderLen + min chunkedDataLen
      ((List.replicate 2821 7).length - 1 * chunkedDataLen) ∧
    (sendCompressed (List.replicate 1 (fun l => Except.ok l) ++ [fun _ => Except.ok 0])
        [0, 1, 2, 3, 4, 5, 6, 7] (List.replicate 2821 7)).result =
      Except.error "Write len (chunk)" ∧
    (sendCompressed (List.replicate 1 (fun l => Except.ok l) ++ [fun _ => Except.ok 0])
        [0, 1, 2, 3, 4, 5, 6, 7] (List.replicate 2821 7)).sent.length = 2 ∧
    sendCompressed [fun _ => Except.ok 5] [0, 1, 2, 3, 4, 5, 6, 7] [1, 2, 3] =
      { result := Except.error "bad write", sent := [[1, 2, 3]] } := by
  have hn : numChunks (List.replicate 2821 7) = 3 := by
    unfold numChunks
    rw [List.length_replicate]
    norm_num [ChunkSize, chunkedDataLen, chunkedHeaderLen]
  have hshort : (0 : Nat) ≠ chunkedHeaderLen + min chunkedDataLen
      ((List.replicate 2821 7).length - 1 * chunkedDataLen) := by
    rw [List.length_replicate, chunkedHeaderLen_eq, chunkedDataLen_eq]
    omega
  have h := claim_C9 (List.replicate 2821 7) [0, 1, 2, 3, 4, 5, 6, 7] 1 0
    (by decide) (by omega) (by omega) (by omega) hshort
  exact ⟨by decide, by omega, by omega, by omega, hshort, h.1.1, h.1.2,
    h.2 [1, 2, 3] 5 (by decide) (by decide)⟩

/-- Claim C3 (code bug): two consecutive sends with an unchanged default
configuration (gzip, level 1) each construct a fresh compressor — the
construction counter advances on both calls and the second live handle
differs from the first — because the cached `zwCompressionLevel` (stuck
at its zero value) never matches the configured level 1. The claim's
promised reuse does not happen. -/
theorem claim_C3_bug :
    ∃ s1 s2 : WriterState,
      ensureCompressor initialWriter 0 = Except.ok (s1, 1) ∧
      ensureCompressor s1 1 = Except.ok (s2, 2) ∧
      s1.compressionType = initialWriter.compressionType ∧
      s1.compressionLevel = initialWriter.compressionLevel ∧
      s1.zw = some ⟨CompressType.gzip, 1, 0⟩ ∧
      s2.zw = some ⟨CompressType.gzip, 1, 1⟩ ∧
      s1.zw ≠ s2.zw := by
  refine ⟨{ initialWriter with zw := some ⟨CompressType.gzip, 1, 0⟩ },
    { initialWriter with zw := some ⟨CompressType.gzip, 1, 1⟩ },
    ?_, ?_, rfl, rfl, rfl, rfl, by decide⟩
  · simp [ensureCompressor, initialWriter, validLevel]
  · simp [ensureCompressor, initialWriter, validLevel]

lemma set_append_last (xs : List Char) (a b : Char) :
    (xs ++ [a]).set xs.length b = xs ++ [b] := by
  induction xs with
  | nil => rfl
  | cons c rest ih =>
    simp only [List.cons_append, List.length_cons, List.set_cons_succ, ih]

lemma commaSep_append (l1 l2 : List (List Char)) (h1 : l1 ≠ []) (h2 : l2 ≠ []) :
    commaSep (l1 ++ l2) = commaSep l1 ++ ',' :: commaSep l2 := by
  induction l1 with
  | nil => exact absurd rfl h1
  | cons x rest ih =>
    cases rest with
    | nil =>
      cases l2 with
      | nil => exact absurd rfl h2
      | cons y ys => simp [commaSep]
    | cons z zs =>
      have htail := ih (by simp)
      simp only [List.cons_append] at htail ⊢
      rw [show commaSep (x :: z :: (zs ++ l2)) = x ++ ',' :: commaSep (z :: (zs ++ l2))
          from rfl,
        htail, show commaSep (x :: z :: zs) = x ++ ',' :: commaSep (z :: zs) from rfl]
      simp [List.append_assoc]

/-- Claim C6: the encoder produces one flat JSON object — the fixed
fields followed by every extension entry verbatim at top level, obtained
by splicing the two serialized objects — and an empty extension map
yields bytes identical to serializing the fixed fields alone. -/
theorem claim_C6 (m : Message) :
    (m.Extra ≠ [] → marshalJSON m = serObj (fixedPairs m ++ m.Extra)) ∧
    (m.Extra = [] → marshalJSON m = marshalInner m) := by
  constructor
  · intro hne
    rw [marshalJSON]
    rw [if_neg (by simpa using hne)]
    rw [marshalInner, serObj, serObj, serObj]
    have hb1 : (lbrace :: commaSep ((fixedPairs m).map serMember) ++ [rbrace]).length - 1 =
        (lbrace :: commaSep ((fixedPairs m).map serMember)).length := by
      simp
    rw [hb1,
      show lbrace :: commaSep ((fixedPairs m).map serMember) ++ [rbrace] =
        (lbrace :: commaSep ((fixedPairs m).map serMember)) ++ [rbrace] from rfl,
      set_append_last (lbrace :: commaSep ((fixedPairs m).map serMember)) rbrace ',']
    rw [List.map_append,
      commaSep_append ((fixedPairs m).map serMember) (m.Extra.map serMember)
        (by simp [fixedPairs]) (by simpa using hne)]
    simp [List.append_assoc]
  · intro he
    rw [marshalJSON, if_pos (by simp [he]), marshalInner]

theorem claim_C6_witness :
    (Message.mk "1.1" "h" "boot" "" 0 6 "f" "" 0 [("_user_id", Jval.num 42)]).Extra ≠ [] ∧
    marshalJSON (Message.mk "1.1" "h" "boot" "" 0 6 "f" "" 0 [("_user_id", Jval.num 42)]) =
      serObj (fixedPairs (Message.mk "1.1" "h" "boot" "" 0 6 "f" "" 0
          [("_user_id", Jval.num 42)]) ++ [("_user_id", Jval.num 42)]) ∧
    marshalJSON (Message.mk "1.1" "h" "boot" "" 0 6 "f" "" 0 []) =
      marshalInner (Message.mk "1.1" "h" "boot" "" 0 6 "f" "" 0 []) := by
  refine ⟨by simp, ?_, ?_⟩
  · exact (claim_C6 (Message.mk "1.1" "h" "boot" "" 0 6 "f" "" 0
      [("_user_id", Jval.num 42)])).1 (by simp)
  · exact (claim_C6 (Message.mk "1.1" "h" "boot" "" 0 6 "f" "" 0 [])).2 rfl

/-! ### Round trip and panic behaviour of the decoder -/

lemma truncToward0_intCast (z : Int) : truncToward0 (z : Rat) = z := by
  rw [truncToward0]
  by_cases h : (z : Rat) < 0
  · rw [if_pos h, show -(z : Rat) = ((-z : Int) : Rat) from by push_cast; ring,
      Int.floor_intCast]
    omega
  · rw [if_neg h]
    exact Int.floor_intCast z

lemma wrap32_id (z : Int) (h1 : -2147483648 ≤ z) (h2 : z < 2147483648) :
    wrap32 z = z := by
  rw [wrap32, Int.emod_eq_of_lt (by omega) (by omega)]
  omega

lemma wrap64_id (z : Int) (h1 : -9223372036854775808 ≤ z)
    (h2 : z < 9223372036854775808) : wrap64 z = z := by
  rw [wrap64, Int.emod_eq_of_lt (by omega) (by omega)]
  omega

lemma ratToInt32_intCast (z : Int) (h1 : -2147483648 ≤ z) (h2 : z < 2147483648) :
    ratToInt32 (z : Rat) = z := by
  rw [ratToInt32, truncToward0_intCast]
  exact wrap32_id z h1 h2

lemma ratToInt64_intCast (z : Int) (h1 : -9223372036854775808 ≤ z)
    (h2 : z < 9223372036854775808) : ratToInt64 (z : Rat) = z := by
  rw [ratToInt64, truncToward0_intCast]
  exact wrap64_id z h1 h2

lemma decodeStep_underscore (m : Message) (k : String) (v : Jval) (t : List Char)
    (ht : k.data = '_' :: t) :
    decodeStep m k v = StepResult.cont { m with Extra := mapInsert m.Extra k v } := by
  unfold decodeStep
  rw [ht]
  simp

lemma mapInsert_fresh (l : List (String × Jval)) (k : String) (v : Jval)
    (h : ∀ p ∈ l, p.1 ≠ k) : mapInsert l k v = l ++ [(k, v)] := by
  induction l with
  | nil => rfl
  | cons p rest ih =>
    rw [mapInsert, if_neg (h p (by simp)), ih (fun q hq => h q (by simp [hq]))]
    rfl

/-- Routing a block of fresh underscore-prefixed keys appends them, in
order, to the extension map. -/
lemma decodeLoop_extras (extras : List (String × Jval)) :
    ∀ (m : Message),
      (∀ p ∈ extras, ∃ t, p.1.data = '_' :: t) →
      (extras.map Prod.fst).Nodup →
      (∀ p ∈ extras, ∀ q ∈ m.Extra, q.1 ≠ p.1) →
      decodeLoop m extras = DecodeOutcome.ok { m with Extra := m.Extra ++ extras } := by
  induction extras with
  | nil =>
    intro m _ _ _
    simp [decodeLoop]
  | cons p rest ih =>
    intro m hus hnd hdisj
    obtain ⟨k, v⟩ := p
    obtain ⟨t, ht⟩ := hus (k, v) (by simp)
    rw [List.map_cons] at hnd
    have h1 := (List.nodup_cons.mp hnd).1
    have h2 := (List.nodup_cons.mp hnd).2
    rw [decodeLoop, decodeStep_underscore m k v t ht]
    change decodeLoop { m with Extra := mapInsert m.Extra k v } rest = _
    rw [mapInsert_fresh m.Extra k v (fun q hq => hdisj (k, v) (by simp) q hq)]
    have hfresh : ∀ p ∈ rest, ∀ q ∈ m.Extra ++ [(k, v)], q.1 ≠ p.1 := by
      intro p hp q hq
      rcases List.mem_append.mp hq with hq1 | hq2
      · exact hdisj p (by simp [hp]) q hq1
      · have hk : q = (k, v) := by simpa using hq2
        subst hk
        intro hkp
        exact h1 (by rw [hkp]; exact List.mem_map_of_mem Prod.fst hp)
    rw [ih { m with Extra := m.Extra ++ [(k, v)] }
      (fun p hp => hus p (by simp [hp])) h2 hfresh]
    simp

/-- Claim C7: for a message whose extension keys are underscore-prefixed
and distinct and whose level/line fit their integer types, decoding the
encoded flat object restores the message exactly — all fixed fields and
the extension map (empty or not) round-trip. -/
theorem claim_C7 (m : Message)
    (hkeys : ∀ p ∈ m.Extra, ∃ t, p.1.data = '_' :: t)
    (hnd : (m.Extra.map Prod.fst).Nodup)
    (hlv1 : -2147483648 ≤ m.Level) (hlv2 : m.Level < 2147483648)
    (hln1 : -9223372036854775808 ≤ m.Line)
    (hln2 : m.Line < 9223372036854775808) :
    roundTrip m = DecodeOutcome.ok m := by
  obtain ⟨V, H, S, F, T, L, Fa, Fi, Ln, E⟩ := m
  rw [roundTrip,
    show decodeLoop emptyMessage (fixedPairs (Message.mk V H S F T L Fa Fi Ln E) ++ E) =
      decodeLoop (Message.mk V H S F T (ratToInt32 (L : Rat)) Fa Fi
        (ratToInt64 (Ln : Rat)) []) E from rfl,
    decodeLoop_extras E _ hkeys hnd (by simp)]
  simp only [ratToInt32_intCast L hlv1 hlv2, ratToInt64_intCast Ln hln1 hln2]
  simp

theorem claim_C7_witness :
    (∀ p ∈ (Message.mk "1.1" "h" "boot" "" 0 6 "f" "" 42
        [("_user_id", Jval.num 42)]).Extra, ∃ t, p.1.data = '_' :: t) ∧
    ((Message.mk "1.1" "h" "boot" "" 0 6 "f" "" 42
        [("_user_id", Jval.num 42)]).Extra.map Prod.fst).Nodup ∧
    roundTrip (Message.mk "1.1" "h" "boot" "" 0 6 "f" "" 42 [("_user_id", Jval.num 42)]) =
      DecodeOutcome.ok
        (Message.mk "1.1" "h" "boot" "" 0 6 "f" "" 42 [("_user_id", Jval.num 42)]) ∧
    roundTrip (Message.mk "1.1" "h" "boot" "" 0 6 "f" "" 42 []) =
      DecodeOutcome.ok (Message.mk "1.1" "h" "boot" "" 0 6 "f" "" 42 []) := by
  have hkeys : ∀ p ∈ (Message.mk "1.1" "h" "boot" "" 0 6 "f" "" 42
      [("_user_id", Jval.num 42)]).Extra, ∃ t, p.1.data = '_' :: t := by
    intro p hp
    rw [List.mem_singleton] at hp
    subst hp
    exact ⟨"user_id".data, rfl⟩
  refine ⟨hkeys, by simp, ?_, ?_⟩
  · exact claim_C7 _ hkeys (by simp) (by decide) (by decide) (by decide) (by decide)
  · exact claim_C7 _ (by simp) (by simp) (by decide) (by decide) (by decide) (by decide)

/-- Claim C8 (code bug): a known fixed key carrying a value of an
unexpected JSON type — here `"version"` bound to the number 42 — makes
the decode loop hit the unchecked type assertion `v.(string)` and abort
with a runtime panic rather than returning an error or skipping the
field. -/
theorem claim_C8_bug :
    decodeLoop emptyMessage [("version", Jval.num 42)] =
      DecodeOutcome.panic "interface conversion" ∧
    isPanic (decodeLoop emptyMessage [("version", Jval.num 42)]) = true := by
  exact ⟨rfl, rfl⟩

/-- Claim C10: the decode loop inspects `k[0]` without guarding against
an empty key, so an object whose key list contains the empty string is
decoded to a runtime out-of-range panic — never to an error return or a
success. -/
theorem claim_C10 (m : Message) (v : Jval) (rest pairs : List (String × Jval))
    (hmem : ("", v) ∈ pairs) :
    decodeLoop m (("", v) :: rest) =
      DecodeOutcome.panic "runtime error: index out of range" ∧
    isPanic (decodeLoop m pairs) = true := by
  constructor
  · rfl
  · revert hmem
    induction pairs generalizing m with
    | nil =>
      intro hmem
      cases hmem
    | cons p rest' ih =>
      intro hmem
      obtain ⟨k, w⟩ := p
      rw [decodeLoop]
      cases hs : decodeStep m k w with
      | panic r => simp [isPanic]
      | cont m' =>
        rcases List.mem_cons.mp hmem with heq | hmem'
        · injection heq with hk hv
          rw [show decodeStep m k w = decodeStep m "" w from by rw [← hk]] at hs
          rw [show decodeStep m "" w =
            StepResult.panic "runtime error: index out of range" from rfl] at hs
          cases hs
        · exact ih m' hmem'

theorem claim_C10_witness :
    (("", Jval.null) ∈ ([("host", Jval.str "h"), ("", Jval.null)] :
        List (String × Jval))) ∧
    decodeLoop emptyMessage [("", Jval.null)] =
      DecodeOutcome.panic "runtime error: index out of range" ∧
    isPanic (decodeLoop emptyMessage [("host", Jval.str "h"), ("", Jval.null)]) = true := by
  have h := claim_C10 emptyMessage Jval.null []
    [("host", Jval.str "h"), ("", Jval.null)] (by simp)
  exact ⟨by simp, h.1, h.2⟩
